import Mathlib

/-!
Verification of the art-gallery selection-tracking app.

The development shallowly embeds the program's data model and operations:
* the Selection Tracker of `src/hooks/useSelectionTracker.ts` (an id -> action
  record with a cached selected count, plus JSON persistence),
* the remote-source adapter of `src/api/artApi.ts`,
* the Page Controller of `src/components/ArtTable.tsx` (fetchPage, goToPage,
  onSelectionChange, handleAutoSelectNext).

JavaScript objects keyed by numbers enumerate their integer-like keys in
ascending numeric order; the in-memory action record is therefore embedded as
an association list sorted strictly by key, and every mutation goes through
`upsert`, which preserves that order.  `JSON.parse` and `JSON.stringify` are
the browser's; they are modelled concretely below (a recursive-descent parser
over the JSON grammar and a serializer), so that the persistence round-trip
and the malformed-input behaviour are established against real string
processing rather than assumed.
-/

/-- JSON values, as produced by `JSON.parse`.  Numbers keep their source
lexeme: the program never computes with parsed numbers, it only compares
values against the strings "selected"/"deselected". -/
inductive JVal where
  | null : JVal
  | bool (b : Bool) : JVal
  | num (raw : String) : JVal
  | str (s : String) : JVal
  | arr (items : List JVal) : JVal
  | obj (fields : List (String × JVal)) : JVal

/-- The two brace characters, by code point. -/
def lbraceC : Char := Char.ofNat 123

def rbraceC : Char := Char.ofNat 125

/-- Decimal digit to character. -/
def digitChar (d : Nat) : Char := Char.ofNat (48 + d)

/-- Fuelled big-endian decimal rendering (the fuel bounds the digit count). -/
def natCharsAux : Nat → Nat → List Char → List Char
  | 0, _, acc => acc
  | f + 1, n, acc =>
    if n < 10 then digitChar n :: acc
    else natCharsAux f (n / 10) (digitChar (n % 10) :: acc)

/-- Canonical decimal rendering of a natural number, as JavaScript's
`String(n)` produces for the object keys of the action record. -/
def natChars (n : Nat) : List Char := natCharsAux (n + 1) n []

def natStr (n : Nat) : String := ⟨natChars n⟩

/-- Numeric value of a digit string (big-endian fold). -/
def charsVal (cs : List Char) : Nat := cs.foldl (fun a c => a * 10 + (c.toNat - 48)) 0

/-- A string key reaches a numeric property slot exactly when it is the
canonical decimal numeral of that number (JavaScript property lookup by a
number id goes through `String(id)`). -/
def canonNatKey (s : String) : Option Nat :=
  match s.data with
  | [] => none
  | c :: cs =>
    if c = '0' then (if cs.isEmpty then some 0 else none)
    else if (c :: cs).all Char.isDigit then some (charsVal (c :: cs))
    else none

/-- Skip JSON insignificant whitespace. -/
def skipWs : List Char → List Char
  | [] => []
  | c :: cs =>
    if c = ' ' ∨ c = '\t' ∨ c = '\n' ∨ c = '\r' then skipWs cs else c :: cs

/-- Value of a hexadecimal digit. -/
def hexVal (c : Char) : Option Nat :=
  if '0' ≤ c ∧ c ≤ '9' then some (c.toNat - 48)
  else if 'a' ≤ c ∧ c ≤ 'f' then some (c.toNat - 87)
  else if 'A' ≤ c ∧ c ≤ 'F' then some (c.toNat - 55)
  else none

/-- Single-character JSON string escapes. -/
def escChar (c : Char) : Option Char :=
  if c = '"' then some '"'
  else if c = '\\' then some '\\'
  else if c = '/' then some '/'
  else if c = 'b' then some (Char.ofNat 8)
  else if c = 'f' then some (Char.ofNat 12)
  else if c = 'n' then some '\n'
  else if c = 'r' then some '\r'
  else if c = 't' then some '\t'
  else none

/-- Body of a JSON string (after the opening quote): characters up to the
closing quote, with escape sequences decoded and raw control characters
rejected, as `JSON.parse` does. -/
def parseStrBody : List Char → Option (String × List Char)
  | [] => none
  | c :: cs =>
    if c = '"' then some ("", cs)
    else if c = '\\' then
      match cs with
      | [] => none
      | e :: cs2 =>
        if e = 'u' then
          match cs2 with
          | a :: b :: c3 :: d :: cs3 =>
            match hexVal a, hexVal b, hexVal c3, hexVal d with
            | some ha, some hb, some hc, some hd =>
              match parseStrBody cs3 with
              | some (s, r) => some (⟨Char.ofNat (((ha * 16 + hb) * 16 + hc) * 16 + hd) :: s.data⟩, r)
              | none => none
            | _, _, _, _ => none
          | _ => none
        else
          match escChar e with
          | some ec =>
            match parseStrBody cs2 with
            | some (s, r) => some (⟨ec :: s.data⟩, r)
            | none => none
          | none => none
    else if c.toNat < 32 then none
    else
      match parseStrBody cs with
      | some (s, r) => some (⟨c :: s.data⟩, r)
      | none => none

/-- Longest leading run of decimal digits. -/
def takeDigits : List Char → List Char × List Char
  | [] => ([], [])
  | c :: cs =>
    if c.isDigit then
      let p := takeDigits cs
      (c :: p.1, p.2)
    else ([], c :: cs)

/-- Integer part of a JSON number: `0`, or a nonzero digit followed by digits
(leading zeros are a syntax error in JSON). -/
def parseIntPart : List Char → Option (List Char × List Char)
  | [] => none
  | c :: cs =>
    if c = '0' then
      match cs with
      | d :: _ => if d.isDigit then none else some (['0'], cs)
      | [] => some (['0'], [])
    else if c.isDigit then
      let p := takeDigits cs
      some (c :: p.1, p.2)
    else none

/-- Optional fraction part of a JSON number. -/
def parseFrac : List Char → Option (List Char × List Char)
  | [] => some ([], [])
  | c :: cs =>
    if c = '.' then
      match takeDigits cs with
      | ([], _) => none
      | (ds, r) => some ('.' :: ds, r)
    else some ([], c :: cs)

/-- Optional exponent part of a JSON number. -/
def parseExp : List Char → Option (List Char × List Char)
  | [] => some ([], [])
  | c :: cs =>
    if c = 'e' ∨ c = 'E' then
      match cs with
      | [] => none
      | s :: cs2 =>
        if s = '+' ∨ s = '-' then
          match takeDigits cs2 with
          | ([], _) => none
          | (ds, r) => some (c :: s :: ds, r)
        else
          match takeDigits (s :: cs2) with
          | ([], _) => none
          | (ds, r) => some (c :: ds, r)
    else some ([], c :: cs)

/-- A JSON number token; the lexeme is kept verbatim. -/
def parseNumTok (cs : List Char) : Option (String × List Char) :=
  let sp : List Char × List Char :=
    match cs with
    | c :: r => if c = '-' then ([c], r) else ([], cs)
    | [] => ([], [])
  match parseIntPart sp.2 with
  | none => none
  | some (ip, r1) =>
    match parseFrac r1 with
    | none => none
    | some (fp, r2) =>
      match parseExp r2 with
      | none => none
      | some (ep, r3) => some (⟨sp.1 ++ ip ++ fp ++ ep⟩, r3)

/-- Strip an expected keyword from the front of the input. -/
def dropKw : List Char → List Char → Option (List Char)
  | [], cs => some cs
  | k :: ks, c :: cs => if c = k then dropKw ks cs else none
  | _ :: _, [] => none

/-- Parser mode: a single value, the fields of an object being accumulated, or
the items of an array being accumulated. -/
inductive PMode where
  | val : PMode
  | fields (acc : List (String × JVal)) : PMode
  | items (acc : List JVal) : PMode

/-- Recursive-descent JSON parser (`JSON.parse`).  The fuel only bounds the
recursion depth of the grammar; `jsonParse` supplies one unit per input
character, which is always enough. -/
def parseJ (fuel : Nat) (mode : PMode) (cs : List Char) : Option (JVal × List Char) :=
  match fuel, mode, cs with
  | 0, _, _ => none
  | f + 1, .val, cs =>
    match skipWs cs with
    | [] => none
    | c :: rest =>
      if c = lbraceC then parseJ f (.fields []) rest
      else if c = '[' then parseJ f (.items []) rest
      else if c = '"' then
        match parseStrBody rest with
        | some (s, r) => some (.str s, r)
        | none => none
      else if c = 't' then
        match dropKw "true".toList (c :: rest) with
        | some r => some (.bool true, r)
        | none => none
      else if c = 'f' then
        match dropKw "false".toList (c :: rest) with
        | some r => some (.bool false, r)
        | none => none
      else if c = 'n' then
        match dropKw "null".toList (c :: rest) with
        | some r => some (.null, r)
        | none => none
      else
        match parseNumTok (c :: rest) with
        | some (ds, r) => some (.num ds, r)
        | none => none
  | f + 1, .fields acc, cs =>
    match skipWs cs with
    | [] => none
    | c :: rest =>
      if c = rbraceC then (if acc.isEmpty then some (.obj [], rest) else none)
      else if c = '"' then
        match parseStrBody rest with
        | none => none
        | some (k, r2) =>
          match skipWs r2 with
          | ':' :: r3 =>
            match parseJ f .val r3 with
            | none => none
            | some (v, r4) =>
              match skipWs r4 with
              | [] => none
              | c2 :: r5 =>
                if c2 = ',' then parseJ f (.fields (acc ++ [(k, v)])) r5
                else if c2 = rbraceC then some (.obj (acc ++ [(k, v)]), r5)
                else none
          | _ => none
      else none
  | f + 1, .items acc, cs =>
    match skipWs cs with
    | [] => none
    | c :: rest =>
      if c = ']' then (if acc.isEmpty then some (.arr [], rest) else none)
      else
        match parseJ f .val (c :: rest) with
        | none => none
        | some (v, r2) =>
          match skipWs r2 with
          | [] => none
          | c2 :: r3 =>
            if c2 = ',' then parseJ f (.items (acc ++ [v])) r3
            else if c2 = ']' then some (.arr (acc ++ [v]), r3)
            else none

/-- `JSON.parse`: parse one value and require only whitespace after it;
`none` models the `SyntaxError` the browser throws. -/
def jsonParse (s : String) : Option JVal :=
  match parseJ (s.toList.length + 1) .val s.toList with
  | some (v, rest) => if (skipWs rest).isEmpty then some v else none
  | none => none

/-- A quoted JSON string.  The action record's own values ("selected" /
"deselected") and canonical numeral keys never need escaping, which is the
only case the theorems serialize. -/
def quoteChars (s : String) : List Char := '"' :: s.data ++ ['"']

mutual

/-- `JSON.stringify` for a JSON value. -/
def jvalChars : JVal → List Char
  | .null => "null".toList
  | .bool true => "true".toList
  | .bool false => "false".toList
  | .num ds => ds.data
  | .str s => quoteChars s
  | .arr vs => '[' :: jarrChars vs ++ [']']
  | .obj fs => lbraceC :: jobjChars fs ++ [rbraceC]

/-- Comma-separated serialization of array items. -/
def jarrChars : List JVal → List Char
  | [] => []
  | [v] => jvalChars v
  | v :: vs => jvalChars v ++ ',' :: jarrChars vs

/-- Comma-separated serialization of object fields. -/
def jobjChars : List (String × JVal) → List Char
  | [] => []
  | [(k, v)] => quoteChars k ++ ':' :: jvalChars v
  | (k, v) :: fs => quoteChars k ++ ':' :: jvalChars v ++ ',' :: jobjChars fs

end

/-! ## Data model (`src/api/artApi.ts`, `src/components/ArtTable.tsx`) -/

/-- A record of the remote catalog (`Artwork` in `src/api/artApi.ts`).
Identity is the id; the display fields are irrelevant to selection logic. -/
structure Artwork where
  id : Nat
  title : String
  place_of_origin : Option String
  artist_display : Option String
  inscriptions : Option String
  date_start : Option Int
  date_end : Option Int
deriving DecidableEq

/-! ## Selection Tracker (`src/hooks/useSelectionTracker.ts`)

`userActionsRef.current` is a JavaScript object keyed by record id.  Such an
object holds at most one value per key and enumerates integer-like keys in
ascending numeric order, so it is embedded as an association list sorted
strictly by key; `upsert` (the embedding of `obj[id] = v`) preserves that
order.  Values are JSON values: the tracker writes `.str "selected"` /
`.str "deselected"`, while `hydrate` may install other parsed values. -/

abbrev SelMap := List (Nat × JVal)

def selJ : JVal := .str "selected"

def deselJ : JVal := .str "deselected"

/-- Property lookup `obj[id]` (first, and under sortedness only, entry). -/
def lookupAct : SelMap → Nat → Option JVal
  | [], _ => none
  | e :: es, i => if e.1 = i then some e.2 else lookupAct es i

/-- Property write `obj[id] = v`, keeping the ascending key order. -/
def upsert : SelMap → Nat → JVal → SelMap
  | [], i, v => [(i, v)]
  | e :: es, i, v =>
    if i < e.1 then (i, v) :: e :: es
    else if i = e.1 then (i, v) :: es
    else e :: upsert es i v

/-- The strict-equality test `x === 'selected'`. -/
def isSelVal : JVal → Bool
  | .str s => s == "selected"
  | _ => false

/-- The strict-equality test `x === 'deselected'`. -/
def isDeselVal : JVal → Bool
  | .str s => s == "deselected"
  | _ => false

/-- `recount`: walk the keys of the action record and count the entries whose
value is `'selected'` (lines 22-29 of the hook). -/
def recount (m : SelMap) : Nat := (m.filter fun e => isSelVal e.2).length

/-- Tracker state: the action record plus the derived `selectedCount`. -/
structure SelState where
  map : SelMap
  selectedCount : Nat

/-- `current[id] === 'selected'` for a map. -/
def actionIsSelected (m : SelMap) (i : Nat) : Bool :=
  match lookupAct m i with
  | some v => isSelVal v
  | none => false

def isSelected (s : SelState) (id : Nat) : Bool := actionIsSelected s.map id

def markSelected (id : Nat) (s : SelState) : SelState :=
  let m := upsert s.map id selJ
  ⟨m, recount m⟩

def markDeselected (id : Nat) (s : SelState) : SelState :=
  let m := upsert s.map id deselJ
  ⟨m, recount m⟩

def toggle (id : Nat) (checked : Bool) (s : SelState) : SelState :=
  if checked then markSelected id s else markDeselected id s

/-- One upsert per row, then a single recount (lines 86-90). -/
def selectAllOnPage (rows : List Artwork) (s : SelState) : SelState :=
  let m := rows.foldl (fun m r => upsert m r.id selJ) s.map
  ⟨m, recount m⟩

def deselectAllOnPage (rows : List Artwork) (s : SelState) : SelState :=
  let m := rows.foldl (fun m r => upsert m r.id deselJ) s.map
  ⟨m, recount m⟩

def clearAll (_s : SelState) : SelState := ⟨[], recount []⟩

/-- Filter the given page rows by the current map (lines 105-107); the rows
are only read, never stored. -/
def selectedOnPage (s : SelState) (rows : List Artwork) : List Artwork :=
  rows.filter fun r => isSelected s r.id

def getSelectedCount (s : SelState) : Nat := s.selectedCount

/-- Read-only copy of the map (`getActionsSnapshot`). -/
def getActionsSnapshot (s : SelState) : SelMap := s.map

/-! ## Persistence

`localStorage` under the single caller-supplied key is a slot holding an
optional string; `hasKey` records whether `initialPersistKey` was supplied. -/

/-- One serialized entry of the action record: quoted decimal key, colon,
serialized value. -/
def entryChars (e : Nat × JVal) : List Char :=
  quoteChars (natStr e.1) ++ ':' :: jvalChars e.2

/-- Comma-separated serialized entries of the action record. -/
def bodyChars : SelMap → List Char
  | [] => []
  | [e] => entryChars e
  | e :: es => entryChars e ++ ',' :: bodyChars es

/-- `JSON.stringify(userActionsRef.current)`: integer-like keys are emitted in
ascending order, which is the order of the sorted representation. -/
def stringifyActions (m : SelMap) : String :=
  ⟨lbraceC :: bodyChars m ++ [rbraceC]⟩

/-- `persist` (lines 32-42): serialize the whole map into the storage slot. -/
def persist (hasKey : Bool) (s : SelState) (storage : Option String) : Option String :=
  if hasKey then some (stringifyActions s.map) else storage

/-- The effect of `userActionsRef.current = parsed ?? {}` followed by numeric
property access: a parsed object contributes its canonically-numeric-keyed
fields (later duplicates overwrite earlier ones, enumeration is ascending); a
parsed array behaves as the object keyed `0..n-1`; `null` is replaced by the
empty object; other primitives have no integer-keyed own properties visible
to the tracker's numeric reads and writes. -/
def jsToSelMap : JVal → SelMap
  | .obj fs =>
    fs.foldl
      (fun m kv =>
        match canonNatKey kv.1 with
        | some n => upsert m n kv.2
        | none => m)
      []
  | .arr vs => vs.enum
  | _ => []

/-- `hydrate` (lines 44-55): read the slot, `JSON.parse` it, install the
result and recount; a missing slot or a parse failure leaves the state
untouched (the `catch` swallows the `SyntaxError`). -/
def hydrate (hasKey : Bool) (s : SelState) (storage : Option String) : SelState :=
  if hasKey then
    match storage with
    | none => s
    | some serial =>
      match jsonParse serial with
      | none => s
      | some v =>
        let m := jsToSelMap v
        ⟨m, recount m⟩
  else s

/-- `init` just hydrates (lines 60-62). -/
def init (hasKey : Bool) (s : SelState) (storage : Option String) : SelState :=
  hydrate hasKey s storage

/-! ## Remote source client (`src/api/artApi.ts`) -/

/-- What the raw HTTP response body carries: records plus optional pagination
info with optional fields (the adapter applies `??` defaults to each). -/
structure RawPagination where
  total : Option Nat
  limit : Option Nat
  offset : Option Nat
  total_pages : Option Nat
deriving DecidableEq

structure RawResp where
  data : List Artwork
  pagination : Option RawPagination
deriving DecidableEq

/-- Outcome of the `fetch` call: a network failure, or an HTTP response with
an ok-flag and a body. -/
inductive RemoteResult where
  | netErr : RemoteResult
  | http (ok : Bool) (body : RawResp) : RemoteResult
deriving DecidableEq

structure Pagination where
  total : Nat
  limit : Nat
  offset : Nat
  total_pages : Option Nat
deriving DecidableEq

structure ArtResponse where
  data : List Artwork
  pagination : Pagination
deriving DecidableEq

/-- `Math.ceil(a / b)` for naturals (used with the positive page size). -/
def ceilDiv (a b : Nat) : Nat := (a + b - 1) / b

/-- `fetchArtworksPage` (lines 23-38 of `artApi.ts`): throw on a network
error or a non-ok status; otherwise adapt the body, defaulting each missing
pagination field, and deriving `total_pages` as `ceil(total / limit)` from
the request's `limit` argument when the server omits it. -/
def fetchArtworksPage (remote : Nat → Nat → RemoteResult) (page limit : Nat) :
    Except String ArtResponse :=
  match remote page limit with
  | .netErr => .error "fetch failed"
  | .http ok json =>
    if ok then
      .ok
        { data := json.data
          pagination :=
            { total := (json.pagination.bind fun p => p.total).getD 0
              limit := (json.pagination.bind fun p => p.limit).getD limit
              offset := (json.pagination.bind fun p => p.offset).getD ((page - 1) * limit)
              total_pages := some ((json.pagination.bind fun p => p.total_pages).getD
                (ceilDiv ((json.pagination.bind fun p => p.total).getD 0) limit)) } }
    else .error ("Failed to fetch page " ++ natStr page)

/-! ## Page Controller (`src/components/ArtTable.tsx`) -/

structure PageMeta where
  page : Nat
  totalPages : Nat
  total : Nat
  limit : Nat
deriving DecidableEq

def PAGE_SIZE : Nat := 12

/-- Controller state: the current page rows, the loading flag, the metadata
of the last successful fetch, and the selection tracker. -/
structure CtrlState where
  rows : List Artwork
  loading : Bool
  meta : PageMeta
  sel : SelState

/-- `fetchPage` (lines 69-87): on success replace rows and metadata wholesale
(`totalPages` is `(resp.pagination.total_pages ?? Math.ceil(total / limit)) || 1`);
on failure log the error and leave rows and metadata untouched. -/
def fetchPage (remote : Nat → Nat → RemoteResult) (page : Nat) (st : CtrlState) :
    CtrlState × Option String :=
  match fetchArtworksPage remote page PAGE_SIZE with
  | .error e => ({ st with loading := false }, some e)
  | .ok resp =>
    let total := resp.pagination.total
    let limit := resp.pagination.limit
    let totalPages0 := resp.pagination.total_pages.getD (ceilDiv total limit)
    let totalPages := if totalPages0 = 0 then 1 else totalPages0
    ({ st with
        rows := resp.data
        loading := false
        meta := { page := page, totalPages := totalPages, total := total, limit := limit } },
      none)

/-- `goToPage` (lines 112-115): silently ignore out-of-range pages, otherwise
fetch. -/
def goToPage (remote : Nat → Nat → RemoteResult) (page : Nat) (st : CtrlState) :
    CtrlState × Option String :=
  if page < 1 ∨ st.meta.totalPages < page then (st, none)
  else fetchPage remote page st

/-- First-occurrence deduplication, the iteration set of
`new Set(e.value.map(r => r.id))`. -/
def dedupKeep : List Nat → List Nat
  | [] => []
  | i :: is => i :: (dedupKeep is).filter (fun j => j ≠ i)

/-- `onSelectionChange` (lines 98-109): mark every checked id selected, then
mark every current-page row outside the checked set deselected. -/
def onSelectionChange (checked rows : List Artwork) (s : SelState) : SelState :=
  let newlySelectedIds := dedupKeep (checked.map fun r => r.id)
  let s1 := newlySelectedIds.foldl (fun t i => markSelected i t) s
  rows.foldl (fun t r => if r.id ∈ newlySelectedIds then t else markDeselected r.id t) s1

/-- The inner `for (const r of batch)` loop of `handleAutoSelectNext`: stop
once `count` is reached; skip already-selected ids; newly mark and count the
rest. -/
def selectBatch : List Artwork → Nat → Nat → SelState → SelState × Nat
  | [], _, c, s => (s, c)
  | r :: rs, count, c, s =>
    if count ≤ c then (s, c)
    else if isSelected s r.id then selectBatch rs count c s
    else selectBatch rs count (c + 1) (markSelected r.id s)

/-- The `while (collected < count && p <= meta.totalPages)` loop of
`handleAutoSelectNext` (lines 134-150): fetch page `p`, apply the batch to
the tracker only (never to the displayed rows), advance to `p + 1`.  A fetch
rejection aborts the walk, keeping the selections made so far.  The fuel
only bounds the iteration count; the loop runs at most `totalPages` times,
so the `totalPages + 1` supplied by `handleAutoSelectNext` never runs out. -/
def walkPages (remote : Nat → Nat → RemoteResult) (count totalPages : Nat) :
    Nat → Nat → Nat → SelState → SelState × Nat × Option String
  | 0, c, _, s => (s, c, none)
  | fuel + 1, c, p, s =>
    if c < count ∧ p ≤ totalPages then
      match fetchArtworksPage remote p PAGE_SIZE with
      | .error e => (s, c, some e)
      | .ok resp =>
        let sc := selectBatch resp.data count c s
        walkPages remote count totalPages fuel sc.2 (p + 1) sc.1
    else (s, c, none)

/-- `handleAutoSelectNext` (lines 131-154): walk the pages after the current
one, then re-fetch the page that was current before the call. -/
def handleAutoSelectNext (remote : Nat → Nat → RemoteResult) (count : Nat) (st : CtrlState) :
    CtrlState × Option String :=
  let w := walkPages remote count st.meta.totalPages (st.meta.totalPages + 1) 0
    (st.meta.page + 1) st.sel
  match w.2.2 with
  | some e => ({ st with sel := w.1 }, some e)
  | none => fetchPage remote st.meta.page { st with sel := w.1 }

/-! ## Abstract tracker mutations and the spec-side selected count -/

/-- The mutating tracker calls named by the count invariant. -/
inductive TrackerOp where
  | markSel (id : Nat) : TrackerOp
  | markDesel (id : Nat) : TrackerOp
  | selAll (rows : List Artwork) : TrackerOp
  | deselAll (rows : List Artwork) : TrackerOp
  | clear : TrackerOp

def applyOp : TrackerOp → SelState → SelState
  | .markSel i, s => markSelected i s
  | .markDesel i, s => markDeselected i s
  | .selAll rows, s => selectAllOnPage rows s
  | .deselAll rows, s => deselectAllOnPage rows s
  | .clear, s => clearAll s

def applyOps (ops : List TrackerOp) (s : SelState) : SelState :=
  ops.foldl (fun t op => applyOp op t) s

/-- Representation invariant of the action record: keys strictly ascending,
as a JavaScript object enumerates integer-like keys. -/
def SortedKeys (m : SelMap) : Prop := List.Pairwise (fun a b : Nat × JVal => a.1 < b.1) m

def keys (m : SelMap) : List Nat := m.map Prod.fst

/-- Spec-side count: the number of distinct ids whose most recent action in
the map is selected (sentence of §8 of the spec, not read off the code). -/
def specSelCount (m : SelMap) : Nat :=
  ((keys m).toFinset.filter fun i => actionIsSelected m i = true).card

/-- All values of the map are genuine actions. -/
def wfActions (m : SelMap) : Bool := m.all fun e => isSelVal e.2 || isDeselVal e.2

/-! ## Concrete fixtures for the spec's scenarios -/

/-- A record with the given id (field contents are irrelevant to selection). -/
def mkArt (i : Nat) : Artwork :=
  { id := i, title := "", place_of_origin := none, artist_display := none
    inscriptions := none, date_start := none, date_end := none }

/-- Ids of page `p` in a 12-per-page dataset: `12(p-1)+1 .. 12p`. -/
def pageIds (p : Nat) : List Nat := (List.range 12).map fun k => 12 * (p - 1) + k + 1

/-- A 3-page, 12-per-page remote source (36 records, ids 1..36). -/
def remote3 : Nat → Nat → RemoteResult := fun p _ =>
  .http true
    { data := (pageIds p).map mkArt
      pagination := some
        { total := some 36, limit := some 12, offset := some ((p - 1) * 12)
          total_pages := some 3 } }

/-- Controller displaying page 1 of `remote3`, nothing selected yet. -/
def st3 : CtrlState :=
  { rows := (pageIds 1).map mkArt, loading := false
    meta := { page := 1, totalPages := 3, total := 36, limit := 12 }
    sel := ⟨[], 0⟩ }

/-- A remote source reporting 30 records with page size 12 and no
`total_pages` field, for the ceiling-derivation scenario. -/
def remote30 : Nat → Nat → RemoteResult := fun p _ =>
  .http true
    { data := [mkArt (12 * (p - 1) + 1)]
      pagination := some
        { total := some 30, limit := some 12, offset := some ((p - 1) * 12)
          total_pages := none } }

/-- A remote source whose response carries `total_pages = 0` next to a
nonzero total: the controller does not take this value from the response. -/
def remoteTPZero : Nat → Nat → RemoteResult := fun _ _ =>
  .http true
    { data := [mkArt 1]
      pagination := some
        { total := some 100, limit := some 12, offset := some 0
          total_pages := some 0 } }

/-- An arbitrary initial controller state for the fixtures. -/
def stInit : CtrlState :=
  { rows := [], loading := false
    meta := { page := 1, totalPages := 1, total := 0, limit := 12 }
    sel := ⟨[], 0⟩ }

/-- A persisted string that is valid JSON but not of the id -> action shape:
the array `["selected"]`. -/
def badShapeStored : String := "[\"selected\"]"

/-! ## Lemmas about the action record -/

theorem lookupAct_upsert_self (m : SelMap) (i : Nat) (v : JVal) :
    lookupAct (upsert m i v) i = some v := by
  induction m with
  | nil => simp [upsert, lookupAct]
  | cons e es ih =>
    by_cases h1 : i < e.1
    · simp [upsert, h1, lookupAct]
    · by_cases h2 : i = e.1
      · simp [upsert, h1, h2, lookupAct]
      · have hne : e.1 ≠ i := fun h => h2 h.symm
        simp [upsert, h1, h2, lookupAct, hne, ih]

theorem lookupAct_upsert_ne (m : SelMap) (i j : Nat) (v : JVal) (h : j ≠ i) :
    lookupAct (upsert m i v) j = lookupAct m j := by
  have hij : ¬ i = j := fun hh => h hh.symm
  induction m with
  | nil => simp [upsert, lookupAct, hij]
  | cons e es ih =>
    by_cases h1 : i < e.1
    · simp [upsert, h1, lookupAct, hij]
    · by_cases h2 : i = e.1
      · subst h2
        simp [upsert, h1, lookupAct, hij]
      · simp [upsert, h1, h2, lookupAct, ih]

theorem mem_upsert (m : SelMap) (i : Nat) (v : JVal) (x : Nat × JVal)
    (hx : x ∈ upsert m i v) : x = (i, v) ∨ x ∈ m := by
  induction m with
  | nil => simpa [upsert] using hx
  | cons e es ih =>
    by_cases h1 : i < e.1
    · simp only [upsert, if_pos h1, List.mem_cons] at hx
      rcases hx with h | h | h
      · exact Or.inl h
      · exact Or.inr (by simp [h])
      · exact Or.inr (by simp [h])
    · by_cases h2 : i = e.1
      · simp only [upsert, if_neg h1, if_pos h2, List.mem_cons] at hx
        rcases hx with h | h
        · exact Or.inl h
        · exact Or.inr (by simp [h])
      · simp only [upsert, if_neg h1, if_neg h2, List.mem_cons] at hx
        rcases hx with h | h
        · exact Or.inr (by simp [h])
        · rcases ih h with h' | h'
          · exact Or.inl h'
          · exact Or.inr (by simp [h'])

theorem sortedKeys_upsert (m : SelMap) (i : Nat) (v : JVal) (h : SortedKeys m) :
    SortedKeys (upsert m i v) := by
  induction m with
  | nil => simp [upsert, SortedKeys]
  | cons e es ih =>
    rw [SortedKeys, List.pairwise_cons] at h
    by_cases h1 : i < e.1
    · rw [SortedKeys]
      simp only [upsert, if_pos h1]
      refine List.Pairwise.cons ?_ (List.Pairwise.cons h.1 h.2)
      intro x hx
      rcases List.mem_cons.mp hx with hx' | hx'
      · simpa [hx'] using h1
      · exact lt_trans h1 (h.1 x hx')
    · by_cases h2 : i = e.1
      · rw [SortedKeys]
        simp only [upsert, if_neg h1, if_pos h2]
        exact List.Pairwise.cons (by intro x hx; rw [h2]; exact h.1 x hx) h.2
      · rw [SortedKeys]
        simp only [upsert, if_neg h1, if_neg h2]
        refine List.Pairwise.cons ?_ (ih h.2)
        intro x hx
        rcases mem_upsert es i v x hx with h' | h'
        · have hlt : e.1 < i := by omega
          simpa [h'] using hlt
        · exact h.1 x h'

theorem sortedKeys_foldl_upsert (v : JVal) (rows : List Artwork) :
    ∀ m : SelMap, SortedKeys m →
      SortedKeys (rows.foldl (fun m r => upsert m r.id v) m) := by
  induction rows with
  | nil => intro m h; simpa using h
  | cons r rs ih =>
    intro m h
    exact ih (upsert m r.id v) (sortedKeys_upsert m r.id v h)

theorem nodup_keys_of_sorted (m : SelMap) (h : SortedKeys m) : (keys m).Nodup := by
  rw [SortedKeys] at h
  rw [keys, List.Nodup, List.pairwise_map]
  exact h.imp fun hlt => Nat.ne_of_lt hlt

theorem actionIsSelected_cons (e : Nat × JVal) (es : SelMap) (i : Nat) :
    actionIsSelected (e :: es) i =
      if e.1 = i then isSelVal e.2 else actionIsSelected es i := by
  by_cases h : e.1 = i <;> simp [actionIsSelected, lookupAct, h]

theorem filter_keys_eq_recount (m : SelMap) (h : SortedKeys m) :
    ((keys m).filter fun i => actionIsSelected m i).length = recount m := by
  induction m with
  | nil => simp [keys, recount]
  | cons e es ih =>
    rw [SortedKeys, List.pairwise_cons] at h
    have hkeys : keys (e :: es) = e.1 :: keys es := rfl
    have hcongr :
        (keys es).filter (fun i => actionIsSelected (e :: es) i) =
          (keys es).filter (fun i => actionIsSelected es i) := by
      refine List.filter_congr ?_
      intro i hi
      have : ∃ x ∈ es, x.1 = i := by
        rw [keys] at hi
        simpa using hi
      rcases this with ⟨x, hx, hxi⟩
      have hne : e.1 ≠ i := Nat.ne_of_lt (hxi ▸ h.1 x hx)
      simp [actionIsSelected_cons, hne]
    have hhead : actionIsSelected (e :: es) e.1 = isSelVal e.2 := by
      simp [actionIsSelected_cons]
    by_cases hv : isSelVal e.2 = true
    · rw [hkeys, List.filter_cons]
      simp only [hhead, hv, if_pos]
      rw [hcongr]
      simp only [List.length_cons, ih h.2]
      simp [recount, List.filter_cons, hv]
    · rw [hkeys, List.filter_cons]
      have hv' : actionIsSelected (e :: es) e.1 = false := by
        rw [hhead]; exact Bool.eq_false_iff.mpr hv
      simp only [hv']
      rw [if_neg (by simp), hcongr, ih h.2]
      simp [recount, List.filter_cons, Bool.eq_false_iff.mpr hv]

theorem specSelCount_eq_recount (m : SelMap) (h : SortedKeys m) :
    specSelCount m = recount m := by
  rw [specSelCount]
  have h1 : ((keys m).toFinset.filter fun i => actionIsSelected m i = true) =
      ((keys m).filter fun i => actionIsSelected m i).toFinset := by
    rw [List.toFinset_filter]
  rw [h1, List.toFinset_card_of_nodup
    ((nodup_keys_of_sorted m h).filter _), filter_keys_eq_recount m h]

/-- Every mutating tracker call recomputes the cached count from the new map
before returning, and keeps the representation sorted. -/
theorem applyOp_sorted_recount (op : TrackerOp) (s : SelState) (h : SortedKeys s.map) :
    SortedKeys (applyOp op s).map ∧
      (applyOp op s).selectedCount = recount (applyOp op s).map := by
  cases op with
  | markSel i => exact ⟨sortedKeys_upsert s.map i selJ h, rfl⟩
  | markDesel i => exact ⟨sortedKeys_upsert s.map i deselJ h, rfl⟩
  | selAll rows => exact ⟨sortedKeys_foldl_upsert selJ rows s.map h, rfl⟩
  | deselAll rows => exact ⟨sortedKeys_foldl_upsert deselJ rows s.map h, rfl⟩
  | clear => exact ⟨List.Pairwise.nil, rfl⟩

theorem applyOps_sorted_recount (ops : List TrackerOp) :
    ∀ s : SelState, SortedKeys s.map → s.selectedCount = recount s.map →
      SortedKeys (applyOps ops s).map ∧
        (applyOps ops s).selectedCount = recount (applyOps ops s).map := by
  induction ops with
  | nil => intro s h hc; exact ⟨h, hc⟩
  | cons op rest ih =>
    intro s h _
    have h1 := applyOp_sorted_recount op s h
    have : applyOps (op :: rest) s = applyOps rest (applyOp op s) := rfl
    rw [this]
    exact ih (applyOp op s) h1.1 h1.2

/-- C1: for every sequence of markSelected/markDeselected/selectAllOnPage/
deselectAllOnPage/clearAll calls starting from any tracker state (satisfying
the sorted representation invariant of the JavaScript object), the value
returned by `getSelectedCount()` equals the number of distinct ids whose most
recent action in the selection map is selected, recomputed before each
mutating call returns. -/
theorem selectedCount_invariant (ops : List TrackerOp) (s : SelState)
    (hne : ops ≠ []) (hs : SortedKeys s.map) :
    getSelectedCount (applyOps ops s) = specSelCount (applyOps ops s).map := by
  cases ops with
  | nil => exact absurd rfl hne
  | cons op rest =>
    have h1 := applyOp_sorted_recount op s hs
    have hrw : applyOps (op :: rest) s = applyOps rest (applyOp op s) := rfl
    rw [hrw]
    have h2 := applyOps_sorted_recount rest (applyOp op s) h1.1 h1.2
    rw [getSelectedCount, h2.2, specSelCount_eq_recount _ h2.1]

/-- Witness: a concrete run of three mutating calls from a nonempty state. -/
theorem selectedCount_invariant_witness :
    ([TrackerOp.markSel 4, TrackerOp.markDesel 2, TrackerOp.markSel 2] ≠
        ([] : List TrackerOp)) ∧
      SortedKeys [(9, selJ)] ∧
      getSelectedCount
          (applyOps [TrackerOp.markSel 4, TrackerOp.markDesel 2, TrackerOp.markSel 2]
            ⟨[(9, selJ)], 1⟩) =
        specSelCount
          (applyOps [TrackerOp.markSel 4, TrackerOp.markDesel 2, TrackerOp.markSel 2]
            ⟨[(9, selJ)], 1⟩).map :=
  ⟨by simp, by rw [SortedKeys]; exact List.pairwise_singleton _ _,
    selectedCount_invariant _ _ (by simp) (by rw [SortedKeys]; exact List.pairwise_singleton _ _)⟩

/-- C10: marking one id selected or deselected leaves the selection-map entry
of every other id unchanged. -/
theorem mark_frame (s : SelState) (i j : Nat) (h : i ≠ j) :
    lookupAct (markSelected i s).map j = lookupAct s.map j ∧
      lookupAct (markDeselected i s).map j = lookupAct s.map j ∧
      isSelected (markSelected i s) j = isSelected s j ∧
      isSelected (markDeselected i s) j = isSelected s j := by
  have h1 : lookupAct (upsert s.map i selJ) j = lookupAct s.map j :=
    lookupAct_upsert_ne s.map i j selJ (Ne.symm h)
  have h2 : lookupAct (upsert s.map i deselJ) j = lookupAct s.map j :=
    lookupAct_upsert_ne s.map i j deselJ (Ne.symm h)
  exact ⟨h1, h2, by simp [isSelected, actionIsSelected, markSelected, h1],
    by simp [isSelected, actionIsSelected, markDeselected, h2]⟩

/-- Witness: acting on id 1 leaves id 2's entry alone. -/
theorem mark_frame_witness :
    (1 ≠ 2) ∧
      (lookupAct (markSelected 1 ⟨[(2, deselJ)], 0⟩).map 2 = lookupAct [(2, deselJ)] 2 ∧
        lookupAct (markDeselected 1 ⟨[(2, deselJ)], 0⟩).map 2 = lookupAct [(2, deselJ)] 2 ∧
        isSelected (markSelected 1 ⟨[(2, deselJ)], 0⟩) 2 = isSelected ⟨[(2, deselJ)], 0⟩ 2 ∧
        isSelected (markDeselected 1 ⟨[(2, deselJ)], 0⟩) 2 = isSelected ⟨[(2, deselJ)], 0⟩ 2) :=
  ⟨by decide, mark_frame ⟨[(2, deselJ)], 0⟩ 1 2 (by decide)⟩

/-- C8: `selectedOnPage(records)` is exactly the subsequence of the input
whose ids currently map to selected — a sublist of the input (hence in the
input's order), containing a row of the page iff its id is selected; the
tracker state is not consulted for anything else and no row is stored. -/
theorem selectedOnPage_subseq (s : SelState) (rows : List Artwork) :
    (selectedOnPage s rows).Sublist rows ∧
      ∀ r ∈ rows, (r ∈ selectedOnPage s rows ↔ isSelected s r.id = true) := by
  constructor
  · exact List.filter_sublist rows
  · intro r hr
    constructor
    · intro hmem
      exact (List.mem_filter.mp hmem).2
    · intro hsel
      exact List.mem_filter.mpr ⟨hr, hsel⟩

/-- Witness: a two-row page with one selected row. -/
theorem selectedOnPage_subseq_witness :
    (selectedOnPage ⟨[(1, selJ)], 1⟩ [mkArt 1, mkArt 2]).Sublist [mkArt 1, mkArt 2] ∧
      (mkArt 1 ∈ selectedOnPage ⟨[(1, selJ)], 1⟩ [mkArt 1, mkArt 2] ↔
        isSelected ⟨[(1, selJ)], 1⟩ (mkArt 1).id = true) :=
  ⟨(selectedOnPage_subseq ⟨[(1, selJ)], 1⟩ [mkArt 1, mkArt 2]).1,
    (selectedOnPage_subseq ⟨[(1, selJ)], 1⟩ [mkArt 1, mkArt 2]).2 (mkArt 1) (by simp)⟩

/-- C6: whenever the remote call errors or returns a non-success status,
`fetchPage(page)` fails with a fetch error; the previous Page View, Page
Metadata and tracker state are left unchanged, and the failure is surfaced
(logged) to the caller. -/
theorem fetchPage_error_preserves_state (remote : Nat → Nat → RemoteResult)
    (page : Nat) (st : CtrlState)
    (h : remote page PAGE_SIZE = .netErr ∨
      ∃ body, remote page PAGE_SIZE = .http false body) :
    (∃ e, fetchArtworksPage remote page PAGE_SIZE = .error e ∧
        fetchPage remote page st = ({ st with loading := false }, some e)) ∧
      (fetchPage remote page st).1.rows = st.rows ∧
      (fetchPage remote page st).1.meta = st.meta ∧
      (fetchPage remote page st).1.sel = st.sel ∧
      (fetchPage remote page st).2.isSome = true := by
  have herr : ∃ e, fetchArtworksPage remote page PAGE_SIZE = .error e := by
    rcases h with h | ⟨body, h⟩
    · exact ⟨"fetch failed", by rw [fetchArtworksPage, h]⟩
    · exact ⟨"Failed to fetch page " ++ natStr page, by rw [fetchArtworksPage, h]; rfl⟩
  rcases herr with ⟨e, he⟩
  have hfp : fetchPage remote page st = ({ st with loading := false }, some e) := by
    rw [fetchPage, he]
  refine ⟨⟨e, he, hfp⟩, ?_, ?_, ?_, ?_⟩ <;> simp [hfp]

/-- Witness: a remote source that always fails at the network level. -/
theorem fetchPage_error_preserves_state_witness :
    ((fun _ _ => RemoteResult.netErr) 3 PAGE_SIZE = RemoteResult.netErr ∨
        ∃ body, (fun _ _ => RemoteResult.netErr) 3 PAGE_SIZE = RemoteResult.http false body) ∧
      ((fetchPage (fun _ _ => RemoteResult.netErr) 3 stInit).1.rows = stInit.rows ∧
        (fetchPage (fun _ _ => RemoteResult.netErr) 3 stInit).1.meta = stInit.meta ∧
        (fetchPage (fun _ _ => RemoteResult.netErr) 3 stInit).2.isSome = true) :=
  ⟨Or.inl rfl,
    (fetchPage_error_preserves_state (fun _ _ => .netErr) 3 stInit (Or.inl rfl)).2.1,
    (fetchPage_error_preserves_state (fun _ _ => .netErr) 3 stInit (Or.inl rfl)).2.2.1,
    (fetchPage_error_preserves_state (fun _ _ => .netErr) 3 stInit (Or.inl rfl)).2.2.2.2⟩

/-- C7: `goToPage(page)` is a silent no-op — state unchanged and no fetch
issued, whatever the remote source would answer — when `page < 1` or `page`
exceeds the total pages known from the last metadata, and otherwise triggers
`fetchPage(page)`.  With page size 12 and total 30 the derived total pages is
3, and `goToPage(4)` leaves the metadata at page 3. -/
theorem goToPage_bounds :
    (∀ (remote : Nat → Nat → RemoteResult) (page : Nat) (st : CtrlState),
        ((page < 1 ∨ st.meta.totalPages < page) → goToPage remote page st = (st, none)) ∧
          (1 ≤ page → page ≤ st.meta.totalPages →
            goToPage remote page st = fetchPage remote page st)) ∧
      ((fetchPage remote30 3 stInit).1.meta.totalPages = 3 ∧
        (fetchPage remote30 3 stInit).1.meta.page = 3 ∧
        goToPage remote30 4 (fetchPage remote30 3 stInit).1 =
          ((fetchPage remote30 3 stInit).1, none)) := by
  refine ⟨fun remote page st => ⟨?_, ?_⟩, rfl, rfl, rfl⟩
  · intro h
    rw [goToPage, if_pos h]
  · intro h1 h2
    rw [goToPage, if_neg (by omega)]

/-- Witness: out-of-range and in-range navigation on a concrete state. -/
theorem goToPage_bounds_witness :
    ((4 < 1 ∨ stInit.meta.totalPages < 4) ∧
        goToPage remote30 4 stInit = (stInit, none)) ∧
      (1 ≤ 1 ∧ 1 ≤ stInit.meta.totalPages ∧
        goToPage remote30 1 stInit = fetchPage remote30 1 stInit) :=
  ⟨⟨by decide, (goToPage_bounds.1 remote30 4 stInit).1 (by decide)⟩,
    ⟨by decide, by decide, (goToPage_bounds.1 remote30 1 stInit).2 (by decide) (by decide)⟩⟩

/-- C9 counterexample: the claim "total pages used by the controller is taken
from the response when present" fails when the response carries
`total_pages = 0`: here the response reports `total_pages = 0` alongside a
total of 100, yet the controller's metadata shows 1 total page (the `|| 1`
fallback), not 0. -/
theorem totalPages_taken_from_response_counterexample :
    (remoteTPZero 1 PAGE_SIZE =
        RemoteResult.http true
          { data := [mkArt 1]
            pagination := some
              { total := some 100, limit := some 12, offset := some 0
                total_pages := some 0 } }) ∧
      (fetchPage remoteTPZero 1 stInit).1.meta.totalPages = 1 ∧
      (fetchPage remoteTPZero 1 stInit).1.meta.totalPages ≠ 0 := by
  refine ⟨rfl, rfl, by decide⟩

/-- C9 (amended): the controller's total pages is taken from the response
when present and nonzero; when the response omits it, it is computed as
ceiling(total / page size) with a floor of one page (so 1 when total is zero
or unknown); a present-but-zero `total_pages` is also replaced by 1. -/
theorem totalPages_derivation (remote : Nat → Nat → RemoteResult)
    (page : Nat) (st : CtrlState) (raw : RawResp)
    (h : remote page PAGE_SIZE = .http true raw) :
    (∀ tp, (raw.pagination.bind fun p => p.total_pages) = some tp → tp ≠ 0 →
        (fetchPage remote page st).1.meta.totalPages = tp) ∧
      ((raw.pagination.bind fun p => p.total_pages) = none →
        (fetchPage remote page st).1.meta.totalPages =
          max 1 (ceilDiv ((raw.pagination.bind fun p => p.total).getD 0) PAGE_SIZE)) ∧
      ((raw.pagination.bind fun p => p.total_pages) = some 0 →
        (fetchPage remote page st).1.meta.totalPages = 1) := by
  have hok : fetchArtworksPage remote page PAGE_SIZE =
      .ok
        { data := raw.data
          pagination :=
            { total := (raw.pagination.bind fun p => p.total).getD 0
              limit := (raw.pagination.bind fun p => p.limit).getD PAGE_SIZE
              offset := (raw.pagination.bind fun p => p.offset).getD ((page - 1) * PAGE_SIZE)
              total_pages := some ((raw.pagination.bind fun p => p.total_pages).getD
                (ceilDiv ((raw.pagination.bind fun p => p.total).getD 0) PAGE_SIZE)) } } := by
    rw [fetchArtworksPage, h]
    rfl
  refine ⟨?_, ?_, ?_⟩
  · intro tp htp hne
    rw [fetchPage, hok]
    simp only [htp, Option.getD_some]
    simp [if_neg hne]
  · intro hnone
    rw [fetchPage, hok]
    simp only [hnone, Option.getD_none]
    rcases Nat.eq_zero_or_pos (ceilDiv ((raw.pagination.bind fun p => p.total).getD 0) PAGE_SIZE)
      with hz | hp
    · simp [hz]
    · simp only [Option.getD_some]
      rw [if_neg (by omega)]
      omega
  · intro htp
    rw [fetchPage, hok]
    simp [htp]

/-- Witness: a response omitting `total_pages` with total 30 and page size 12
yields 3 total pages, and a response carrying `total_pages = 3` yields 3. -/
theorem totalPages_derivation_witness :
    (remote30 2 PAGE_SIZE =
        RemoteResult.http true
          { data := [mkArt 13]
            pagination := some
              { total := some 30, limit := some 12, offset := some 12
                total_pages := none } }) ∧
      (fetchPage remote30 2 stInit).1.meta.totalPages = max 1 (ceilDiv 30 PAGE_SIZE) ∧
      (fetchPage remote3 2 stInit).1.meta.totalPages = 3 :=
  ⟨rfl,
    (totalPages_derivation remote30 2 stInit _ rfl).2.1 rfl,
    (totalPages_derivation remote3 2 stInit _ rfl).1 3 rfl (by decide)⟩

/-! ## Lemmas about the selection-change folds -/

theorem mem_dedupKeep (L : List Nat) (i : Nat) : i ∈ dedupKeep L ↔ i ∈ L := by
  induction L with
  | nil => simp [dedupKeep]
  | cons j js ih =>
    by_cases h : i = j
    · simp [dedupKeep, h]
    · simp [dedupKeep, h, List.mem_filter, ih]

theorem lookup_selfold_not_mem (L : List Nat) :
    ∀ (s : SelState) (i : Nat), i ∉ L →
      lookupAct ((L.foldl (fun t i => markSelected i t) s).map) i = lookupAct s.map i := by
  induction L with
  | nil => intro s i _; rfl
  | cons j js ih =>
    intro s i hi
    have hij : i ≠ j := fun h => hi (by simp [h])
    have htail : i ∉ js := fun h => hi (by simp [h])
    rw [List.foldl_cons, ih (markSelected j s) i htail]
    exact lookupAct_upsert_ne s.map j i selJ hij

theorem lookup_selfold_mem (L : List Nat) :
    ∀ (s : SelState) (i : Nat), i ∈ L →
      lookupAct ((L.foldl (fun t i => markSelected i t) s).map) i = some selJ := by
  induction L with
  | nil => intro s i hi; simp at hi
  | cons j js ih =>
    intro s i hi
    by_cases htail : i ∈ js
    · rw [List.foldl_cons]
      exact ih (markSelected j s) i htail
    · have hij : i = j := by
        rcases List.mem_cons.mp hi with h | h
        · exact h
        · exact absurd h htail
      rw [List.foldl_cons, lookup_selfold_not_mem js (markSelected j s) i htail, hij]
      exact lookupAct_upsert_self s.map j selJ

theorem lookup_dfold_frame (ids : List Nat) (rows : List Artwork) :
    ∀ (s : SelState) (i : Nat), (∀ r ∈ rows, r.id = i → r.id ∈ ids) →
      lookupAct ((rows.foldl
          (fun t r => if r.id ∈ ids then t else markDeselected r.id t) s).map) i =
        lookupAct s.map i := by
  induction rows with
  | nil => intro s i _; rfl
  | cons r rs ih =>
    intro s i hcond
    rw [List.foldl_cons]
    by_cases hr : r.id ∈ ids
    · rw [if_pos hr]
      exact ih s i fun r' hr' => hcond r' (by simp [hr'])
    · rw [if_neg hr]
      have hne : r.id ≠ i := fun h => hr (hcond r (by simp) h)
      rw [ih (markDeselected r.id s) i fun r' hr' => hcond r' (by simp [hr'])]
      exact lookupAct_upsert_ne s.map r.id i deselJ (Ne.symm hne)

theorem lookup_dfold_hit (ids : List Nat) (rows : List Artwork) :
    ∀ (s : SelState) (i : Nat), i ∉ ids → (∃ r ∈ rows, r.id = i) →
      lookupAct ((rows.foldl
          (fun t r => if r.id ∈ ids then t else markDeselected r.id t) s).map) i =
        some deselJ := by
  induction rows with
  | nil => intro s i _ hex; simp at hex
  | cons r rs ih =>
    intro s i hids hex
    rw [List.foldl_cons]
    by_cases htail : ∃ r' ∈ rs, r'.id = i
    · by_cases hr : r.id ∈ ids
      · rw [if_pos hr]; exact ih s i hids htail
      · rw [if_neg hr]; exact ih (markDeselected r.id s) i hids htail
    · have hhead : r.id = i := by
        rcases hex with ⟨r', hr', hid⟩
        rcases List.mem_cons.mp hr' with h | h
        · rw [h] at hid; exact hid
        · exact absurd ⟨r', h, hid⟩ htail
      have hr : r.id ∉ ids := by rw [hhead]; exact hids
      rw [if_neg hr]
      have hframe : ∀ r' ∈ rs, r'.id = i → r'.id ∈ ids := by
        intro r' hr' hid
        exact absurd ⟨r', hr', hid⟩ htail
      rw [lookup_dfold_frame ids rs (markDeselected r.id s) i hframe, hhead]
      exact lookupAct_upsert_self s.map i deselJ

/-- C2: for every set of checked records reported by the UI for the displayed
page, the selection-change handler marks every id in that set as selected and
marks every record on the current page whose id is not in that set as
deselected; in the scenario with page ids [1,2,3] all pre-selected and new
checked set [1,3], afterwards `isSelected 1`, `not isSelected 2`,
`isSelected 3`. -/
theorem onSelectionChange_reconciles :
    (∀ (checked rows : List Artwork) (s : SelState),
        (∀ a ∈ checked, isSelected (onSelectionChange checked rows s) a.id = true) ∧
          (∀ r ∈ rows, r.id ∉ checked.map (fun a => a.id) →
            lookupAct (onSelectionChange checked rows s).map r.id = some deselJ ∧
              isSelected (onSelectionChange checked rows s) r.id = false)) ∧
      (isSelected (onSelectionChange ([1, 3].map mkArt) ([1, 2, 3].map mkArt)
            ⟨[(1, selJ), (2, selJ), (3, selJ)], 3⟩) 1 = true ∧
        isSelected (onSelectionChange ([1, 3].map mkArt) ([1, 2, 3].map mkArt)
            ⟨[(1, selJ), (2, selJ), (3, selJ)], 3⟩) 2 = false ∧
        isSelected (onSelectionChange ([1, 3].map mkArt) ([1, 2, 3].map mkArt)
            ⟨[(1, selJ), (2, selJ), (3, selJ)], 3⟩) 3 = true) := by
  constructor
  · intro checked rows s
    have hun : onSelectionChange checked rows s =
        rows.foldl
          (fun t r => if r.id ∈ dedupKeep (checked.map fun r => r.id) then t
            else markDeselected r.id t)
          ((dedupKeep (checked.map fun r => r.id)).foldl (fun t i => markSelected i t) s) :=
      rfl
    constructor
    · intro a ha
      have hmem : a.id ∈ dedupKeep (checked.map fun r => r.id) :=
        (mem_dedupKeep _ _).mpr (List.mem_map_of_mem _ ha)
      have hframe : lookupAct (onSelectionChange checked rows s).map a.id =
          lookupAct ((dedupKeep (checked.map fun r => r.id)).foldl
            (fun t i => markSelected i t) s).map a.id := by
        rw [hun]
        exact lookup_dfold_frame _ rows _ a.id fun r' _ hid => hid ▸ hmem
      rw [isSelected, actionIsSelected, hframe,
        lookup_selfold_mem _ s a.id hmem]
      rfl
    · intro r hr hnot
      have hnotIds : r.id ∉ dedupKeep (checked.map fun r => r.id) :=
        fun h => hnot ((mem_dedupKeep _ _).mp h)
      have hlook : lookupAct (onSelectionChange checked rows s).map r.id = some deselJ := by
        rw [hun]
        exact lookup_dfold_hit _ rows _ r.id hnotIds ⟨r, hr, rfl⟩
      exact ⟨hlook, by rw [isSelected, actionIsSelected, hlook]; rfl⟩
  · exact ⟨by decide, by decide, by decide⟩

/-- Witness: checked set [5] on page [5,6] selects 5 and deselects 6. -/
theorem onSelectionChange_reconciles_witness :
    ((mkArt 5) ∈ [mkArt 5] ∧
        isSelected (onSelectionChange [mkArt 5] [mkArt 5, mkArt 6] ⟨[], 0⟩) (mkArt 5).id =
          true) ∧
      ((mkArt 6) ∈ [mkArt 5, mkArt 6] ∧
        (mkArt 6).id ∉ [mkArt 5].map (fun a => a.id) ∧
        lookupAct (onSelectionChange [mkArt 5] [mkArt 5, mkArt 6] ⟨[], 0⟩).map (mkArt 6).id =
          some deselJ) :=
  ⟨⟨by simp,
      (onSelectionChange_reconciles.1 [mkArt 5] [mkArt 5, mkArt 6] ⟨[], 0⟩).1 (mkArt 5)
        (by simp)⟩,
    ⟨by simp, by decide,
      ((onSelectionChange_reconciles.1 [mkArt 5] [mkArt 5, mkArt 6] ⟨[], 0⟩).2 (mkArt 6)
        (by simp) (by decide)).1⟩⟩

/-! ## Lemmas about the auto-select walk -/

theorem isSelected_markSelected_mono (s : SelState) (j i : Nat)
    (h : isSelected s i = true) : isSelected (markSelected j s) i = true := by
  by_cases hij : i = j
  · subst hij
    rw [isSelected, actionIsSelected, markSelected]
    simp only [lookupAct_upsert_self]
    rfl
  · rw [isSelected, actionIsSelected, markSelected]
    simp only [lookupAct_upsert_ne s.map j i selJ hij]
    exact h

theorem lookup_markSelected_changed (s : SelState) (j i : Nat)
    (h : lookupAct (markSelected j s).map i ≠ lookupAct s.map i) :
    i = j ∧ lookupAct (markSelected j s).map i = some selJ := by
  by_cases hij : i = j
  · subst hij
    exact ⟨rfl, lookupAct_upsert_self s.map i selJ⟩
  · exact absurd (lookupAct_upsert_ne s.map j i selJ hij) h

theorem selectBatch_mono (batch : List Artwork) (count : Nat) :
    ∀ (c : Nat) (s : SelState) (i : Nat), isSelected s i = true →
      isSelected (selectBatch batch count c s).1 i = true := by
  induction batch with
  | nil => intro c s i h; exact h
  | cons r rs ih =>
    intro c s i h
    rw [selectBatch]
    by_cases h1 : count ≤ c
    · rw [if_pos h1]; exact h
    · rw [if_neg h1]
      by_cases h2 : isSelected s r.id
      · rw [if_pos h2]; exact ih c s i h
      · rw [if_neg h2]
        exact ih (c + 1) (markSelected r.id s) i (isSelected_markSelected_mono s r.id i h)

theorem selectBatch_changed (batch : List Artwork) (count : Nat) :
    ∀ (c : Nat) (s : SelState) (i : Nat),
      lookupAct (selectBatch batch count c s).1.map i ≠ lookupAct s.map i →
        lookupAct (selectBatch batch count c s).1.map i = some selJ ∧
          isSelected s i = false := by
  induction batch with
  | nil => intro c s i h; exact absurd rfl h
  | cons r rs ih =>
    intro c s i h
    rw [selectBatch] at h ⊢
    by_cases h1 : count ≤ c
    · rw [if_pos h1] at h; exact absurd rfl h
    · rw [if_neg h1] at h ⊢
      by_cases h2 : isSelected s r.id
      · rw [if_pos h2] at h ⊢; exact ih c s i h
      · rw [if_neg h2] at h ⊢
        by_cases h3 :
            lookupAct (selectBatch rs count (c + 1) (markSelected r.id s)).1.map i ≠
              lookupAct (markSelected r.id s).map i
        · rcases ih (c + 1) (markSelected r.id s) i h3 with ⟨hsel, hnot⟩
          refine ⟨hsel, ?_⟩
          by_cases h4 : isSelected s i = true
          · exact absurd (isSelected_markSelected_mono s r.id i h4)
              (by rw [hnot]; exact Bool.false_ne_true)
          · exact Bool.eq_false_iff.mpr h4
        · push_neg at h3
          rw [h3] at h
          rcases lookup_markSelected_changed s r.id i h with ⟨hij, hsel⟩
          rw [h3, hsel]
          subst hij
          exact ⟨rfl, Bool.eq_false_iff.mpr h2⟩

theorem selectBatch_bound (batch : List Artwork) (count : Nat) :
    ∀ (c : Nat) (s : SelState), c ≤ count → (selectBatch batch count c s).2 ≤ count := by
  induction batch with
  | nil => intro c s h; exact h
  | cons r rs ih =>
    intro c s h
    rw [selectBatch]
    by_cases h1 : count ≤ c
    · rw [if_pos h1]; exact h
    · rw [if_neg h1]
      by_cases h2 : isSelected s r.id
      · rw [if_pos h2]; exact ih c s h
      · rw [if_neg h2]; exact ih (c + 1) (markSelected r.id s) (by omega)

theorem walkPages_mono (remote : Nat → Nat → RemoteResult) (count totalPages : Nat)
    (fuel : Nat) :
    ∀ (c p : Nat) (s : SelState) (i : Nat), isSelected s i = true →
      isSelected (walkPages remote count totalPages fuel c p s).1 i = true := by
  induction fuel with
  | zero => intro c p s i h; exact h
  | succ f ih =>
    intro c p s i h
    rw [walkPages]
    by_cases h1 : c < count ∧ p ≤ totalPages
    · rw [if_pos h1]
      rcases hf : fetchArtworksPage remote p PAGE_SIZE with e | resp
      · exact h
      · exact ih _ (p + 1) _ i (selectBatch_mono resp.data count c s i h)
    · rw [if_neg h1]; exact h

theorem walkPages_changed (remote : Nat → Nat → RemoteResult) (count totalPages : Nat)
    (fuel : Nat) :
    ∀ (c p : Nat) (s : SelState) (i : Nat),
      lookupAct (walkPages remote count totalPages fuel c p s).1.map i ≠
          lookupAct s.map i →
        lookupAct (walkPages remote count totalPages fuel c p s).1.map i = some selJ ∧
          isSelected s i = false := by
  induction fuel with
  | zero => intro c p s i h; exact absurd rfl h
  | succ f ih =>
    intro c p s i h
    rw [walkPages] at h ⊢
    by_cases h1 : c < count ∧ p ≤ totalPages
    · rw [if_pos h1] at h ⊢
      rcases hf : fetchArtworksPage remote p PAGE_SIZE with e | resp
      · simp only [hf] at h; exact absurd rfl h
      · simp only [hf] at h ⊢
        by_cases h3 :
            lookupAct (walkPages remote count totalPages f
                (selectBatch resp.data count c s).2 (p + 1)
                (selectBatch resp.data count c s).1).1.map i ≠
              lookupAct (selectBatch resp.data count c s).1.map i
        · rcases ih _ (p + 1) _ i h3 with ⟨hsel, hnot⟩
          refine ⟨hsel, ?_⟩
          by_cases h4 : isSelected s i = true
          · exact absurd (selectBatch_mono resp.data count c s i h4)
              (by rw [hnot]; exact Bool.false_ne_true)
          · exact Bool.eq_false_iff.mpr h4
        · push_neg at h3
          rw [h3] at h
          rw [h3]
          exact selectBatch_changed resp.data count c s i h
    · rw [if_neg h1] at h; exact absurd rfl h

theorem walkPages_bound (remote : Nat → Nat → RemoteResult) (count totalPages : Nat)
    (fuel : Nat) :
    ∀ (c p : Nat) (s : SelState), c ≤ count →
      (walkPages remote count totalPages fuel c p s).2.1 ≤ count := by
  induction fuel with
  | zero => intro c p s h; exact h
  | succ f ih =>
    intro c p s h
    rw [walkPages]
    by_cases h1 : c < count ∧ p ≤ totalPages
    · rw [if_pos h1]
      rcases hf : fetchArtworksPage remote p PAGE_SIZE with e | resp
      · exact h
      · exact ih _ (p + 1) _ (selectBatch_bound resp.data count c s h)
    · rw [if_neg h1]; exact h

theorem fetchPage_keeps_sel (remote : Nat → Nat → RemoteResult) (page : Nat)
    (st : CtrlState) : (fetchPage remote page st).1.sel = st.sel := by
  rcases hf : fetchArtworksPage remote page PAGE_SIZE with e | resp <;>
    rw [fetchPage, hf]

theorem handleAutoSelectNext_sel (remote : Nat → Nat → RemoteResult) (count : Nat)
    (st : CtrlState) :
    (handleAutoSelectNext remote count st).1.sel =
      (walkPages remote count st.meta.totalPages (st.meta.totalPages + 1) 0
        (st.meta.page + 1) st.sel).1 := by
  rw [handleAutoSelectNext]
  rcases hw : (walkPages remote count st.meta.totalPages (st.meta.totalPages + 1) 0
      (st.meta.page + 1) st.sel).2.2 with _ | e
  · simp only [hw]
    rw [fetchPage_keeps_sel]
  · simp only [hw]

/-- C3: `autoSelectNext(count)` walks pages strictly after the current one:
already-selected ids are preserved, every changed entry is a fresh selection
of a previously-unselected id, the number of ids counted never exceeds
`count`, the walk touches only the tracker (the displayed rows come solely
from the final re-fetch of the page that was current before the call, whose
number is restored in the metadata).  In the 3-page, 12-per-page scenario
where the walk starts at page 2 and ids 13-17 are unselected,
`autoSelectNext(5)` newly selects exactly ids 13-17 and the previously
displayed page 1 is re-displayed. -/
theorem autoSelectNext_spec :
    (∀ (remote : Nat → Nat → RemoteResult) (count : Nat) (st : CtrlState),
        (∀ i, isSelected st.sel i = true →
            isSelected (handleAutoSelectNext remote count st).1.sel i = true) ∧
          (∀ i, lookupAct (handleAutoSelectNext remote count st).1.sel.map i ≠
                lookupAct st.sel.map i →
              lookupAct (handleAutoSelectNext remote count st).1.sel.map i = some selJ ∧
                isSelected st.sel i = false) ∧
          (walkPages remote count st.meta.totalPages (st.meta.totalPages + 1) 0
              (st.meta.page + 1) st.sel).2.1 ≤ count ∧
          (∀ resp, (walkPages remote count st.meta.totalPages (st.meta.totalPages + 1) 0
                (st.meta.page + 1) st.sel).2.2 = none →
            fetchArtworksPage remote st.meta.page PAGE_SIZE = Except.ok resp →
            (handleAutoSelectNext remote count st).1.meta.page = st.meta.page ∧
              (handleAutoSelectNext remote count st).1.rows = resp.data)) ∧
      (keys (handleAutoSelectNext remote3 5 st3).1.sel.map = [13, 14, 15, 16, 17] ∧
        ((handleAutoSelectNext remote3 5 st3).1.sel.map.all fun e => isSelVal e.2) = true ∧
        (handleAutoSelectNext remote3 5 st3).1.sel.selectedCount = 5 ∧
        (handleAutoSelectNext remote3 5 st3).1.meta.page = 1 ∧
        (handleAutoSelectNext remote3 5 st3).1.rows = (pageIds 1).map mkArt) := by
  constructor
  · intro remote count st
    refine ⟨?_, ?_, ?_, ?_⟩
    · intro i h
      rw [handleAutoSelectNext_sel]
      exact walkPages_mono remote count st.meta.totalPages (st.meta.totalPages + 1) 0
        (st.meta.page + 1) st.sel i h
    · intro i h
      rw [handleAutoSelectNext_sel] at h ⊢
      exact walkPages_changed remote count st.meta.totalPages (st.meta.totalPages + 1) 0
        (st.meta.page + 1) st.sel i h
    · exact walkPages_bound remote count st.meta.totalPages (st.meta.totalPages + 1) 0
        (st.meta.page + 1) st.sel (Nat.zero_le count)
    · intro resp hnone hok
      rw [handleAutoSelectNext]
      simp only [hnone]
      rw [fetchPage, hok]
      exact ⟨rfl, rfl⟩
  · refine ⟨by decide, by decide, by decide, by decide, by decide⟩

/-- Witness: from a state with id 1 already selected the walk preserves it,
and with the fixture remote the walk completes and page 1 is restored. -/
theorem autoSelectNext_spec_witness :
    (isSelected (⟨[(1, selJ)], 1⟩ : SelState) 1 = true ∧
        isSelected (handleAutoSelectNext remote3 5
          { st3 with sel := ⟨[(1, selJ)], 1⟩ }).1.sel 1 = true) ∧
      ((walkPages remote3 5 st3.meta.totalPages (st3.meta.totalPages + 1) 0
            (st3.meta.page + 1) st3.sel).2.2 = none ∧
        fetchArtworksPage remote3 st3.meta.page PAGE_SIZE = Except.ok
          { data := (pageIds 1).map mkArt
            pagination := { total := 36, limit := 12, offset := 0, total_pages := some 3 } } ∧
        (handleAutoSelectNext remote3 5 st3).1.meta.page = st3.meta.page) :=
  ⟨⟨by decide,
      ((autoSelectNext_spec.1 remote3 5 { st3 with sel := ⟨[(1, selJ)], 1⟩ }).1 1
        (by decide))⟩,
    ⟨by decide, by rfl,
      ((autoSelectNext_spec.1 remote3 5 st3).2.2.2
          { data := (pageIds 1).map mkArt
            pagination := { total := 36, limit := 12, offset := 0, total_pages := some 3 } }
          (by decide) (by rfl)).1⟩⟩

/-- C5 counterexample: the stored string `["selected"]` does not have the
id -> action shape, yet hydrate installs it instead of discarding it: the
resulting map is nonempty, `isSelected 0` holds and the selected count is 1
(the `catch` only guards JSON syntax errors; the `as`-cast performs no shape
validation). -/
theorem hydrate_wrong_shape_installed :
    (jsonParse badShapeStored).isSome = true ∧
      (hydrate true ⟨[], 0⟩ (some badShapeStored)).map.length = 1 ∧
      isSelected (hydrate true ⟨[], 0⟩ (some badShapeStored)) 0 = true ∧
      getSelectedCount (hydrate true ⟨[], 0⟩ (some badShapeStored)) = 1 := by
  refine ⟨by decide, by decide, by decide, by decide⟩

/-- C5 (amended): hydration never fails and a stored string that is not valid
JSON is discarded, leaving the tracker state unchanged (hence empty at
startup), as is an absent stored value; but a string that parses as JSON of
the wrong shape is installed rather than discarded. -/
theorem hydrate_invalid_json_discarded (t : SelState) (stored : String)
    (h : jsonParse stored = none) :
    hydrate true t (some stored) = t ∧ hydrate true t none = t := by
  constructor
  · rw [hydrate]
    simp only [h, if_true]
  · rfl

/-- Witness: the stored string "not json" is rejected by the parser and the
tracker state survives hydration unchanged. -/
theorem hydrate_invalid_json_discarded_witness :
    jsonParse "not json" = none ∧
      hydrate true ⟨[(3, selJ)], 1⟩ (some "not json") = ⟨[(3, selJ)], 1⟩ :=
  ⟨by rfl, (hydrate_invalid_json_discarded ⟨[(3, selJ)], 1⟩ "not json" (by rfl)).1⟩

/-! ## Decimal numeral round-trip -/

theorem digitChar_toNat (d : Nat) (h : d < 10) : (digitChar d).toNat = 48 + d := by
  interval_cases d <;> decide

theorem digitChar_facts (d : Nat) (h : d < 10) :
    (digitChar d).isDigit = true ∧ digitChar d ≠ '"' ∧ digitChar d ≠ '\\' ∧
      ¬ (digitChar d).toNat < 32 := by
  interval_cases d <;> refine ⟨by decide, by decide, by decide, by decide⟩

theorem digitChar_zero_iff (d : Nat) (h : d < 10) : digitChar d = '0' ↔ d = 0 := by
  interval_cases d <;> simp <;> decide

theorem natCharsAux_eq (n : Nat) :
    ∀ (f : Nat) (acc : List Char), n < f → natCharsAux f n acc = natChars n ++ acc := by
  induction n using Nat.strong_induction_on with
  | _ n ih =>
    intro f acc hf
    match f, hf with
    | f' + 1, _ =>
      by_cases h10 : n < 10
      · rw [natCharsAux, if_pos h10, natChars, natCharsAux, if_pos h10]
        rfl
      · have hdiv : n / 10 < n := Nat.div_lt_self (by omega) (by omega)
        rw [natCharsAux, if_neg h10,
          ih (n / 10) hdiv f' (digitChar (n % 10) :: acc) (by omega)]
        have hr : natChars n = natChars (n / 10) ++ [digitChar (n % 10)] := by
          rw [natChars]
          rw [show natCharsAux (n + 1) n [] = natCharsAux n (n / 10) [digitChar (n % 10)]
            from by rw [natCharsAux, if_neg h10]]
          exact ih (n / 10) hdiv n [digitChar (n % 10)] (by omega)
        rw [hr, List.append_assoc]
        rfl

theorem natChars_lt (n : Nat) (h : n < 10) : natChars n = [digitChar n] := by
  rw [natChars, natCharsAux, if_pos h]

theorem natChars_ge (n : Nat) (h : 10 ≤ n) :
    natChars n = natChars (n / 10) ++ [digitChar (n % 10)] := by
  have hdiv : n / 10 < n := Nat.div_lt_self (by omega) (by omega)
  rw [natChars, natCharsAux, if_neg (by omega),
    natCharsAux_eq (n / 10) n (digitChar (n % 10) :: []) (by omega)]

theorem natChars_mem_facts (n : Nat) :
    ∀ c ∈ natChars n, c.isDigit = true ∧ c ≠ '"' ∧ c ≠ '\\' ∧ ¬ c.toNat < 32 := by
  induction n using Nat.strong_induction_on with
  | _ n ih =>
    by_cases h10 : n < 10
    · rw [natChars_lt n h10]
      intro c hc
      rw [List.mem_singleton] at hc
      subst hc
      exact digitChar_facts n h10
    · rw [natChars_ge n (by omega)]
      intro c hc
      rcases List.mem_append.mp hc with hc | hc
      · exact ih (n / 10) (Nat.div_lt_self (by omega) (by omega)) c hc
      · rw [List.mem_singleton] at hc
        subst hc
        exact digitChar_facts (n % 10) (Nat.mod_lt n (by omega))

theorem natChars_ne_nil (n : Nat) : natChars n ≠ [] := by
  by_cases h10 : n < 10
  · rw [natChars_lt n h10]; simp
  · rw [natChars_ge n (by omega)]; simp

theorem charsVal_append_digit (cs : List Char) (c : Char) :
    charsVal (cs ++ [c]) = charsVal cs * 10 + (c.toNat - 48) := by
  rw [charsVal, charsVal, List.foldl_append]
  rfl

theorem charsVal_natChars (n : Nat) : charsVal (natChars n) = n := by
  induction n using Nat.strong_induction_on with
  | _ n ih =>
    by_cases h10 : n < 10
    · rw [natChars_lt n h10, charsVal, List.foldl_cons, digitChar_toNat n h10]
      simp [charsVal]
    · rw [natChars_ge n (by omega), charsVal_append_digit,
        ih (n / 10) (Nat.div_lt_self (by omega) (by omega)),
        digitChar_toNat (n % 10) (Nat.mod_lt n (by omega))]
      omega

theorem natChars_head_zero (n : Nat) :
    ∀ cs, natChars n = '0' :: cs → n = 0 := by
  induction n using Nat.strong_induction_on with
  | _ n ih =>
    intro cs hcs
    by_cases h10 : n < 10
    · rw [natChars_lt n h10] at hcs
      exact (digitChar_zero_iff n h10).mp (List.head_eq_of_cons_eq hcs)
    · rw [natChars_ge n (by omega)] at hcs
      rcases hh : natChars (n / 10) with _ | ⟨c2, cs2⟩
      · exact absurd hh (natChars_ne_nil (n / 10))
      · rw [hh] at hcs
        have hc2 : c2 = '0' := List.head_eq_of_cons_eq hcs
        subst hc2
        have h0 := ih (n / 10) (Nat.div_lt_self (by omega) (by omega)) cs2 hh
        omega

theorem canonNatKey_cons (c : Char) (cs : List Char) :
    canonNatKey ⟨c :: cs⟩ =
      if c = '0' then (if cs.isEmpty then some 0 else none)
      else if (c :: cs).all Char.isDigit then some (charsVal (c :: cs))
      else none := rfl

theorem canonNatKey_natStr (n : Nat) : canonNatKey (natStr n) = some n := by
  rcases hn : natChars n with _ | ⟨c, cs⟩
  · exact absurd hn (natChars_ne_nil n)
  · have hmk : natStr n = ⟨c :: cs⟩ := by rw [natStr, hn]
    by_cases hc : c = '0'
    · subst hc
      have h0 : n = 0 := natChars_head_zero n cs hn
      subst h0
      decide
    · rw [hmk, canonNatKey_cons, if_neg hc]
      have hall : ((c :: cs).all Char.isDigit) = true := by
        rw [List.all_eq_true]
        intro x hx
        have hx2 : x ∈ natChars n := by rw [hn]; exact hx
        exact (natChars_mem_facts n x hx2).1
      rw [if_pos hall, ← hn, charsVal_natChars]

/-! ## Round-trip of the persisted map through the JSON layer -/

theorem skipWs_cons_ne (c : Char) (cs : List Char)
    (h : ¬ (c = ' ' ∨ c = '\t' ∨ c = '\n' ∨ c = '\r')) : skipWs (c :: cs) = c :: cs := by
  rw [skipWs, if_neg h]

theorem parseStrBody_plain (cs : List Char)
    (h : ∀ c ∈ cs, c ≠ '"' ∧ c ≠ '\\' ∧ ¬ c.toNat < 32) (rest : List Char) :
    parseStrBody (cs ++ '"' :: rest) = some (⟨cs⟩, rest) := by
  induction cs with
  | nil =>
    rw [List.nil_append, parseStrBody.eq_def]
    simp
  | cons c cs2 ih =>
    have hc := h c (by simp)
    have hih := ih fun x hx => h x (by simp [hx])
    rw [List.cons_append, parseStrBody.eq_def]
    simp [hc.1, hc.2.1, hc.2.2, hih]

theorem parseJ_val_str (f : Nat) (s : String)
    (h : ∀ c ∈ s.data, c ≠ '"' ∧ c ≠ '\\' ∧ ¬ c.toNat < 32) (rest : List Char) :
    parseJ (f + 1) .val ('"' :: (s.data ++ '"' :: rest)) = some (.str s, rest) := by
  rw [parseJ, skipWs_cons_ne '"' _ (by decide)]
  show (match parseStrBody (s.data ++ '"' :: rest) with
        | some (s, r) => some (JVal.str s, r)
        | none => none) = some (.str s, rest)
  rw [parseStrBody_plain s.data h rest]

theorem parse_action_val (v : JVal) (hv : isSelVal v = true ∨ isDeselVal v = true)
    (f : Nat) (rest : List Char) :
    parseJ (f + 1) .val (jvalChars v ++ rest) = some (v, rest) := by
  have hs : ∃ s : String, v = .str s ∧
      (∀ c ∈ s.data, c ≠ '"' ∧ c ≠ '\\' ∧ ¬ c.toNat < 32) := by
    rcases hv with hv | hv
    · cases v with
      | str s =>
        refine ⟨s, rfl, ?_⟩
        have : s = "selected" := by
          have := hv
          rw [isSelVal] at this
          exact eq_of_beq this
        subst this
        decide
      | null => simp [isSelVal] at hv
      | bool b => simp [isSelVal] at hv
      | num r => simp [isSelVal] at hv
      | arr l => simp [isSelVal] at hv
      | obj l => simp [isSelVal] at hv
    · cases v with
      | str s =>
        refine ⟨s, rfl, ?_⟩
        have : s = "deselected" := by
          have := hv
          rw [isDeselVal] at this
          exact eq_of_beq this
        subst this
        decide
      | null => simp [isDeselVal] at hv
      | bool b => simp [isDeselVal] at hv
      | num r => simp [isDeselVal] at hv
      | arr l => simp [isDeselVal] at hv
      | obj l => simp [isDeselVal] at hv
  rcases hs with ⟨s, rfl, hplain⟩
  have hchars : jvalChars (.str s) ++ rest = '"' :: (s.data ++ '"' :: rest) := by
    rw [jvalChars, quoteChars]
    simp
  rw [hchars]
  exact parseJ_val_str f s hplain rest

theorem entryChars_split (e : Nat × JVal) (tail : List Char) :
    entryChars e ++ tail =
      '"' :: (natChars e.1 ++ '"' :: ':' :: (jvalChars e.2 ++ tail)) := by
  rw [entryChars, quoteChars]
  have : (natStr e.1).data = natChars e.1 := rfl
  rw [this]
  simp

theorem parseJ_entry_chain (e : Nat × JVal) (f : Nat) (acc : List (String × JVal))
    (c2 : Char) (r5 : List Char)
    (hv : isSelVal e.2 = true ∨ isDeselVal e.2 = true)
    (hws : skipWs (c2 :: r5) = c2 :: r5) :
    parseJ (f + 2) (.fields acc) (entryChars e ++ c2 :: r5) =
      if c2 = ',' then parseJ (f + 1) (.fields (acc ++ [(natStr e.1, e.2)])) r5
      else if c2 = rbraceC then some (.obj (acc ++ [(natStr e.1, e.2)]), r5)
      else none := by
  rw [entryChars_split]
  have hkey : parseStrBody (natChars e.1 ++ '"' :: (':' :: (jvalChars e.2 ++ c2 :: r5))) =
      some (natStr e.1, ':' :: (jvalChars e.2 ++ c2 :: r5)) :=
    parseStrBody_plain (natChars e.1)
      (fun c hc => (natChars_mem_facts e.1 c hc).2) (':' :: (jvalChars e.2 ++ c2 :: r5))
  have hval : parseJ (f + 1) .val (jvalChars e.2 ++ c2 :: r5) = some (e.2, c2 :: r5) :=
    parse_action_val e.2 hv f (c2 :: r5)
  rw [show (f + 2) = (f + 1) + 1 from rfl, parseJ,
    skipWs_cons_ne '"' _ (by decide)]
  show (if '"' = rbraceC then (if acc.isEmpty then some (.obj [], _) else none)
        else if '"' = '"' then
          match parseStrBody (natChars e.1 ++ '"' :: (':' :: (jvalChars e.2 ++ c2 :: r5))) with
          | none => none
          | some (k, r2) =>
            match skipWs r2 with
            | ':' :: r3 =>
              match parseJ (f + 1) .val r3 with
              | none => none
              | some (v, r4) =>
                match skipWs r4 with
                | [] => none
                | c2 :: r5 =>
                  if c2 = ',' then parseJ (f + 1) (.fields (acc ++ [(k, v)])) r5
                  else if c2 = rbraceC then some (.obj (acc ++ [(k, v)]), r5)
                  else none
            | _ => none
        else none) = _
  rw [if_neg (by decide), if_pos rfl, hkey]
  show (match skipWs (':' :: (jvalChars e.2 ++ c2 :: r5)) with
        | ':' :: r3 =>
          match parseJ (f + 1) .val r3 with
          | none => none
          | some (v, r4) =>
            match skipWs r4 with
            | [] => none
            | c2 :: r5 =>
              if c2 = ',' then parseJ (f + 1) (.fields (acc ++ [(natStr e.1, v)])) r5
              else if c2 = rbraceC then some (.obj (acc ++ [(natStr e.1, v)]), r5)
              else none
        | _ => none) = _
  rw [skipWs_cons_ne ':' _ (by decide)]
  show (match parseJ (f + 1) .val (jvalChars e.2 ++ c2 :: r5) with
        | none => none
        | some (v, r4) =>
          match skipWs r4 with
          | [] => none
          | c2 :: r5 =>
            if c2 = ',' then parseJ (f + 1) (.fields (acc ++ [(natStr e.1, v)])) r5
            else if c2 = rbraceC then some (.obj (acc ++ [(natStr e.1, v)]), r5)
            else none) = _
  rw [hval]
  show (match skipWs (c2 :: r5) with
        | [] => none
        | c2 :: r5 =>
          if c2 = ',' then parseJ (f + 1) (.fields (acc ++ [(natStr e.1, e.2)])) r5
          else if c2 = rbraceC then some (.obj (acc ++ [(natStr e.1, e.2)]), r5)
          else none) = _
  rw [hws]

theorem wfActions_head (e : Nat × JVal) (es : SelMap) (h : wfActions (e :: es) = true) :
    (isSelVal e.2 = true ∨ isDeselVal e.2 = true) ∧ wfActions es = true := by
  rw [wfActions, List.all_cons] at h
  rcases Bool.and_eq_true_iff.mp h with ⟨h1, h2⟩
  exact ⟨Bool.or_eq_true_iff.mp h1, h2⟩

theorem parseJ_fields_body (m : SelMap) :
    ∀ (f : Nat) (acc : List (String × JVal)) (rest : List Char),
      wfActions m = true → m ≠ [] → 2 * m.length ≤ f + 2 →
      parseJ (f + 2) (.fields acc) (bodyChars m ++ rbraceC :: rest) =
        some (.obj (acc ++ m.map fun e => (natStr e.1, e.2)), rest) := by
  induction m with
  | nil => intro f acc rest _ hne _; exact absurd rfl hne
  | cons e es ih =>
    intro f acc rest hwf _ hfuel
    rcases wfActions_head e es hwf with ⟨hv, hwfes⟩
    cases es with
    | nil =>
      rw [show bodyChars [e] = entryChars e from rfl,
        parseJ_entry_chain e f acc rbraceC rest hv (skipWs_cons_ne rbraceC rest (by decide)),
        if_neg (by decide), if_pos rfl]
      rfl
    | cons e2 es2 =>
      have hbody : bodyChars (e :: e2 :: es2) = entryChars e ++ ',' :: bodyChars (e2 :: es2) :=
        rfl
      rw [hbody]
      have hassoc : (entryChars e ++ ',' :: bodyChars (e2 :: es2)) ++ rbraceC :: rest =
          entryChars e ++ ',' :: (bodyChars (e2 :: es2) ++ rbraceC :: rest) := by
        simp
      rw [hassoc,
        parseJ_entry_chain e f acc ',' (bodyChars (e2 :: es2) ++ rbraceC :: rest) hv
          (skipWs_cons_ne ',' _ (by decide)),
        if_pos rfl]
      obtain ⟨f2, rfl⟩ : ∃ f2, f = f2 + 1 := by
        refine ⟨f - 1, ?_⟩
        simp at hfuel
        omega
      rw [ih (f2) (acc ++ [(natStr e.1, e.2)]) rest hwfes (by simp) (by simp at hfuel ⊢; omega)]
      simp

theorem entryChars_length_pos (e : Nat × JVal) : 0 < (entryChars e).length := by
  have h : entryChars e ++ [] = '"' :: (natChars e.1 ++ '"' :: ':' :: (jvalChars e.2 ++ [])) :=
    entryChars_split e []
  rw [List.append_nil] at h
  rw [h]
  simp

theorem bodyChars_len (m : SelMap) : 2 * m.length ≤ (bodyChars m).length + 2 := by
  induction m with
  | nil => simp
  | cons e es ih =>
    cases es with
    | nil =>
      have := entryChars_length_pos e
      rw [show bodyChars [e] = entryChars e from rfl]
      simp
    | cons e2 es2 =>
      have h1 := entryChars_length_pos e
      rw [show bodyChars (e :: e2 :: es2) = entryChars e ++ ',' :: bodyChars (e2 :: es2)
        from rfl]
      rw [List.length_append]
      simp only [List.length_cons] at ih ⊢
      omega

theorem jsonParse_stringify (m : SelMap) (hwf : wfActions m = true) :
    jsonParse (stringifyActions m) =
      some (.obj (m.map fun e => (natStr e.1, e.2))) := by
  cases m with
  | nil => rfl
  | cons e es =>
    have hl : (stringifyActions (e :: es)).toList =
        lbraceC :: (bodyChars (e :: es) ++ [rbraceC]) := by
      rw [stringifyActions]
      simp [String.toList]
    rw [jsonParse, hl]
    have hflen : (lbraceC :: (bodyChars (e :: es) ++ [rbraceC])).length + 1 =
        (bodyChars (e :: es)).length + 3 := by
      simp
    rw [hflen]
    rw [show (bodyChars (e :: es)).length + 3 = ((bodyChars (e :: es)).length + 2) + 1
      from rfl]
    rw [parseJ, skipWs_cons_ne lbraceC _ (by decide)]
    show (match parseJ ((bodyChars (e :: es)).length + 2) (.fields [])
            (bodyChars (e :: es) ++ [rbraceC]) with
          | some (v, rest) => if (skipWs rest).isEmpty then some v else none
          | none => none) =
        some (.obj ((e :: es).map fun e => (natStr e.1, e.2)))
    rw [show bodyChars (e :: es) ++ [rbraceC] = bodyChars (e :: es) ++ rbraceC :: [] from rfl,
      parseJ_fields_body (e :: es) ((bodyChars (e :: es)).length) [] [] hwf (by simp)
        (bodyChars_len (e :: es))]
    simp [skipWs]

theorem upsert_append_of_lt (m : SelMap) (i : Nat) (v : JVal)
    (h : ∀ e ∈ m, e.1 < i) : upsert m i v = m ++ [(i, v)] := by
  induction m with
  | nil => rfl
  | cons e es ih =>
    have he : e.1 < i := h e (by simp)
    rw [upsert, if_neg (by omega), if_neg (by omega),
      ih fun x hx => h x (by simp [hx])]
    rfl

theorem decode_fields_fold (m : SelMap) :
    ∀ acc : SelMap, SortedKeys m → (∀ a ∈ acc, ∀ b ∈ m, a.1 < b.1) →
      (m.map fun e => (natStr e.1, e.2)).foldl
        (fun m2 kv =>
          match canonNatKey kv.1 with
          | some n => upsert m2 n kv.2
          | none => m2)
        acc = acc ++ m := by
  induction m with
  | nil => intro acc _ _; simp
  | cons e es ih =>
    intro acc hsort hacc
    rw [SortedKeys, List.pairwise_cons] at hsort
    rw [List.map_cons, List.foldl_cons]
    have hstep :
        (match canonNatKey (natStr e.1) with
          | some n => upsert acc n e.2
          | none => acc) = acc ++ [e] := by
      rw [canonNatKey_natStr e.1]
      exact upsert_append_of_lt acc e.1 e.2 fun a ha => hacc a ha e (by simp)
    rw [hstep, ih (acc ++ [e]) hsort.2 ?_]
    · simp
    · intro a ha b hb
      rcases List.mem_append.mp ha with ha | ha
      · exact hacc a ha b (by simp [hb])
      · rw [List.mem_singleton] at ha
        subst ha
        exact hsort.1 b hb

theorem jsToSelMap_fields (m : SelMap) (hsort : SortedKeys m) :
    jsToSelMap (.obj (m.map fun e => (natStr e.1, e.2))) = m := by
  rw [jsToSelMap]
  exact decode_fields_fold m [] hsort (by simp)

/-- C4: for every selection map (including the empty one) satisfying the
tracker's representation invariant, serializing via `persist` and then
restoring via `hydrate` reproduces an equivalent map — the same id -> action
pairs — so `isSelected` and `getSelectedCount` are unchanged by the
round-trip. -/
theorem persist_hydrate_roundtrip (s t : SelState) (storage : Option String)
    (hsort : SortedKeys s.map) (hwf : wfActions s.map = true)
    (hcount : s.selectedCount = recount s.map) :
    hydrate true t (persist true s storage) = ⟨s.map, s.selectedCount⟩ ∧
      (∀ id, isSelected (hydrate true t (persist true s storage)) id = isSelected s id) ∧
      getSelectedCount (hydrate true t (persist true s storage)) = getSelectedCount s := by
  have hp : persist true s storage = some (stringifyActions s.map) := rfl
  have hmain : hydrate true t (persist true s storage) = ⟨s.map, recount s.map⟩ := by
    rw [hp, hydrate, if_pos rfl]
    show (match jsonParse (stringifyActions s.map) with
          | none => t
          | some v => ⟨jsToSelMap v, recount (jsToSelMap v)⟩) = (⟨s.map, recount s.map⟩ : SelState)
    rw [jsonParse_stringify s.map hwf]
    show (⟨jsToSelMap (.obj (s.map.map fun e => (natStr e.1, e.2))),
          recount (jsToSelMap (.obj (s.map.map fun e => (natStr e.1, e.2))))⟩ : SelState) =
        ⟨s.map, recount s.map⟩
    rw [jsToSelMap_fields s.map hsort]
  refine ⟨?_, ?_, ?_⟩
  · rw [hmain, hcount]
  · intro id
    rw [hmain, isSelected, isSelected]
  · rw [hmain, getSelectedCount, getSelectedCount, hcount]

/-- Witness: a concrete two-entry map survives the round-trip. -/
theorem persist_hydrate_roundtrip_witness :
    SortedKeys [(2, selJ), (7, deselJ)] ∧
      wfActions [(2, selJ), (7, deselJ)] = true ∧
      (1 : Nat) = recount [(2, selJ), (7, deselJ)] ∧
      hydrate true ⟨[], 0⟩ (persist true ⟨[(2, selJ), (7, deselJ)], 1⟩ none) =
        ⟨[(2, selJ), (7, deselJ)], 1⟩ :=
  ⟨by rw [SortedKeys]; exact List.Pairwise.cons (by decide) (List.pairwise_singleton _ _),
    by decide, by decide,
    (persist_hydrate_roundtrip ⟨[(2, selJ), (7, deselJ)], 1⟩ ⟨[], 0⟩ none
      (by rw [SortedKeys]; exact List.Pairwise.cons (by decide) (List.pairwise_singleton _ _))
      (by decide) (by decide)).1⟩
